import Mathlib

/-!
Verification of the storage core of the secure sharing service.

The repository implements a burn-after-reading secret store with two
backends: an in-process map guarded by a mutex (`MemoryStore`, file
`internal/store/memory.go`) and a Redis-backed store using optimistic
concurrency (`RedisStore`, file `internal/store/redis.go`), over the
record type `models.Secret`.

This file shallowly embeds those components:
- `Secret` mirrors `models.Secret`; Go `time.Time` instants are embedded
  as `Int` (nanoseconds since the epoch), and `time.Now()` becomes an
  explicit `now : Int` argument to every operation that reads the clock.
  `t1.After t2` in Go is the strict comparison `t1 > t2`.
- Go maps become association lists with `insertKey` / `eraseKey` /
  `List.lookup`; a `MemoryStore` whose map may have been set to `nil` by
  `Close` is an `Option Table` (`none` = nil map: reads see an empty map,
  writes panic, which `SaveResult.panics` records).
- Redis is modelled as an association list from key to a value together
  with its TTL deadline; a key whose deadline has passed is invisible to
  reads, mirroring Redis's native TTL reclamation.
- the gob encoding used by `encode` / `decode` is modelled from the spec
  (see `encode` below) as a self-contained length-prefixed blob of the
  seven persisted fields.
-/

namespace SecureShare

/-- The four typed store errors of `internal/store/store.go`
(`ErrNotFound`, `ErrExpired`, `ErrMaxViews`, and `redis.TxFailedErr`
surfaced when the optimistic retry budget is exhausted), plus
`internalFault` standing for any other backend or codec failure. -/
inductive StoreErr where
  | notFound
  | expired
  | maxViews
  | writeConflict
  | internalFault
deriving DecidableEq, Repr

/-- `models.Secret` from `internal/models/secret.go`. Byte slices are
`List Nat`, times are `Int` nanoseconds, Go `int` is `Int`. -/
structure Secret where
  id            : String
  encryptedData : List Nat
  maxViews      : Int
  currentViews  : Int
  expiresAt     : Int
  createdAt     : Int
  passphrase    : String
deriving DecidableEq, Repr

/-- The in-memory table `map[string]*models.Secret`, as an association
list (Go maps never hold two bindings for one key). -/
abbrev Table := List (String × Secret)

/-- Go map assignment `m[k] = v`: replace any binding of `k` by `v`. -/
def insertKey {β : Type} (l : List (String × β)) (k : String) (v : β) :
    List (String × β) :=
  (k, v) :: l.filter (fun p => p.1 ≠ k)

/-- Go `delete(m, k)`: drop every binding of `k`. -/
def eraseKey {β : Type} (l : List (String × β)) (k : String) :
    List (String × β) :=
  l.filter (fun p => p.1 ≠ k)

theorem lookup_eraseKey {β : Type} (l : List (String × β)) (k k' : String) :
    List.lookup k' (eraseKey l k) = if k' = k then none else List.lookup k' l := by
  induction l with
  | nil => simp [eraseKey]
  | cons p rest ih =>
    by_cases hpk : p.1 = k
    · have hfil : eraseKey (p :: rest) k = eraseKey rest k := by
        simp [eraseKey, List.filter, hpk]
      rw [hfil, ih]
      by_cases hk' : k' = k
      · simp [hk']
      · have : (k' == p.1) = false := by
          simp [hpk, hk']
        simp [hk', List.lookup, this]
    · have hfil : eraseKey (p :: rest) k = p :: eraseKey rest k := by
        simp [eraseKey, List.filter, hpk]
      rw [hfil]
      by_cases hk' : k' = p.1
      · have hne : ¬ k' = k := fun h => hpk (hk' ▸ h)
        have : (k' == p.1) = true := by simp [hk']
        simp [List.lookup, this, hne]
      · have : (k' == p.1) = false := by simp [hk']
        simp [List.lookup, this, ih]

theorem lookup_insertKey {β : Type} (l : List (String × β)) (k k' : String) (v : β) :
    List.lookup k' (insertKey l k v) =
      if k' = k then some v else List.lookup k' l := by
  by_cases hk : k' = k
  · simp [insertKey, List.lookup, hk]
  · have := lookup_eraseKey l k k'
    simp only [insertKey, List.lookup]
    have hbeq : (k' == k) = false := by
      simp [hk]
    simp [hbeq, hk]
    simpa [eraseKey, hk] using this

/-- Outcome of `MemoryStore.Save`: the new map state, or the run-time
panic Go raises on assignment to a nil map. -/
inductive SaveResult where
  | ok (secrets : Option Table)
  | panics
deriving DecidableEq, Repr

/-- The map state a successful `Save` leaves behind (`none` if it panicked). -/
def SaveResult.newTable : SaveResult → Option Table
  | .ok t => t
  | .panics => none

namespace MemoryStore

/-- `MemoryStore.Save`: stores the record unconditionally under its id.
It performs no expiry check; assigning into a nil map (after `Close`)
panics. -/
def Save (secrets : Option Table) (secret : Secret) : SaveResult :=
  match secrets with
  | none => .panics
  | some t => .ok (some (insertKey t secret.id secret))

/-- `MemoryStore.Get`, in state-passing style: the source holds only a
read lock and performs no write, so the table component is returned
untouched in every branch. Reading a nil map (after `Close`) behaves as
reading an empty map. -/
def Get (now : Int) (secrets : Option Table) (id : String) :
    Option Table × Except StoreErr Secret :=
  match secrets with
  | none => (none, .error .notFound)
  | some t =>
    match List.lookup id t with
    | none => (some t, .error .notFound)
    | some secret =>
      if now > secret.expiresAt then (some t, .error .expired)
      else if secret.currentViews ≥ secret.maxViews then (some t, .error .maxViews)
      else (some t, .ok secret)

/-- `MemoryStore.Delete`: unconditional removal; deleting from a nil map
is a no-op and never an error. -/
def Delete (secrets : Option Table) (id : String) :
    Option Table × Except StoreErr Unit :=
  match secrets with
  | none => (none, .ok ())
  | some t => (some (eraseKey t id), .ok ())

/-- `MemoryStore.IncrementViews`: under one critical section, look up the
record, lazily delete and fail if expired or exhausted, otherwise bump
`currentViews` (an in-place pointer mutation, i.e. the map now holds the
updated record) and delete the record when the new count reaches
`maxViews`. Returns the new count. -/
def IncrementViews (now : Int) (secrets : Option Table) (id : String) :
    Option Table × Except StoreErr Int :=
  match secrets with
  | none => (none, .error .notFound)
  | some t =>
    match List.lookup id t with
    | none => (some t, .error .notFound)
    | some secret =>
      if now > secret.expiresAt then
        (some (eraseKey t id), .error .expired)
      else if secret.currentViews ≥ secret.maxViews then
        (some (eraseKey t id), .error .maxViews)
      else
        let s' := { secret with currentViews := secret.currentViews + 1 }
        let t' := insertKey t id s'
        if s'.currentViews ≥ s'.maxViews then
          (some (eraseKey t' id), .ok s'.currentViews)
        else
          (some t', .ok s'.currentViews)

/-- `MemoryStore.Close`: cancels the sweeper and sets the map to nil. -/
def Close (_secrets : Option Table) : Option Table :=
  none

/-- `MemoryStore.cleanup`, the body of one tick of the periodic sweeper:
remove every record that is expired (`now.After(expiresAt)`) or exhausted
(`currentViews >= maxViews`), keeping the rest untouched. -/
def cleanup (now : Int) (t : Table) : Table :=
  t.filter (fun p => !decide (now > p.2.expiresAt ∨ p.2.currentViews ≥ p.2.maxViews))

end MemoryStore

/-! ### Persisted encoding

`redis.go` serializes records with `encoding/gob`. The gob wire format
itself is library code outside this repository, so the codec is modelled
from the spec. -/

/-- Encode a signed integer as a sign cell followed by a magnitude cell. -/
def encInt (i : Int) : List Nat :=
  if 0 ≤ i then [0, i.toNat] else [1, (-i).toNat]

/-- Encode a byte sequence with a length prefix. -/
def encList (l : List Nat) : List Nat :=
  l.length :: l

/-- Encode a string as the length-prefixed sequence of its character codes. -/
def encStr (s : String) : List Nat :=
  encList (s.data.map Char.toNat)

/-- Modelled from the spec: the gob blob written by `encode` in
`redis.go` is "a self-contained binary blob carrying id, ciphertext,
maxViews, currentViews, expiresAt, createdAt, passphrase"; the concrete
cell layout stands in for gob's wire format, which is `encoding/gob`
library code not part of this repository. -/
def encode (secret : Secret) : List Nat :=
  encStr secret.id ++ encList secret.encryptedData ++
    encInt secret.maxViews ++ encInt secret.currentViews ++
    encInt secret.expiresAt ++ encInt secret.createdAt ++
    encStr secret.passphrase

/-- Read back one length-prefixed sequence; `none` on truncated input. -/
def decList : List Nat → Option (List Nat × List Nat)
  | [] => none
  | n :: rest =>
    if rest.length < n then none else some (rest.take n, rest.drop n)

/-- Read back one signed integer. -/
def decInt : List Nat → Option (Int × List Nat)
  | sign :: mag :: rest =>
    if sign = 0 then some ((mag : Int), rest)
    else if sign = 1 then some (-(mag : Int), rest)
    else none
  | _ => none

/-- Modelled from the spec: inverse of `encode`, standing in for the gob
decoder used by `decode` in `redis.go`; fails on any blob `encode` cannot
have produced. -/
def decode (data : List Nat) : Option Secret := do
  let (idc, r1) ← decList data
  let (ed, r2) ← decList r1
  let (mv, r3) ← decInt r2
  let (cv, r4) ← decInt r3
  let (ea, r5) ← decInt r4
  let (ca, r6) ← decInt r5
  let (pc, r7) ← decList r6
  if r7 = [] then
    some ⟨String.mk (idc.map Char.ofNat), ed, mv, cv, ea, ca,
      String.mk (pc.map Char.ofNat)⟩
  else none

theorem decList_encList (l rest : List Nat) :
    decList (encList l ++ rest) = some (l, rest) := by
  simp only [encList, List.cons_append, decList, List.length_append]
  rw [if_neg (by omega)]
  rw [List.take_left, List.drop_left]

theorem decInt_encInt (i : Int) (rest : List Nat) :
    decInt (encInt i ++ rest) = some (i, rest) := by
  by_cases h : 0 ≤ i
  · simp [encInt, decInt, h, Int.toNat_of_nonneg h]
  · have h2 : 0 ≤ -i := by omega
    simp [encInt, decInt, h, Int.toNat_of_nonneg h2]

theorem map_ofNat_map_toNat (l : List Char) :
    (l.map Char.toNat).map Char.ofNat = l := by
  induction l with
  | nil => rfl
  | cons c cs ih => simp [ih, Char.ofNat_toNat]

theorem decode_encode (s : Secret) : decode (encode s) = some s := by
  obtain ⟨i, ed, mv, cv, ea, ca, pp⟩ := s
  simp only [encode, encStr, List.append_assoc]
  simp only [decode, decList_encList, decInt_encInt, Option.bind_eq_bind,
    Option.some_bind]
  have h1 : decList (encList (pp.data.map Char.toNat)) =
      some (pp.data.map Char.toNat, []) := by
    simpa using decList_encList (pp.data.map Char.toNat) []
  simp only [h1, Option.some_bind]
  rw [if_pos trivial, map_ofNat_map_toNat, map_ofNat_map_toNat]

/-! ### Redis model

Redis is modelled as an association list from key to a stored blob paired
with the absolute deadline set by the key's TTL. Per Redis's native TTL
semantics, a key whose deadline has passed is indistinguishable from an
absent key for every command. -/

/-- One Redis value: the stored blob and the absolute instant at which
its TTL expires. -/
structure RedisEntry where
  value    : List Nat
  expireAt : Int
deriving DecidableEq, Repr

/-- The Redis keyspace. -/
abbrev RedisDB := List (String × RedisEntry)

/-- Key namespace helper `secretKey` from `redis.go`. -/
def secretKey (id : String) : String :=
  "secret:" ++ id

/-- The entry a Redis command sees at `now`: present only while its TTL
deadline lies strictly in the future. -/
def dbEntry (now : Int) (db : RedisDB) (k : String) : Option RedisEntry :=
  match List.lookup k db with
  | none => none
  | some e => if now < e.expireAt then some e else none

/-- Redis `GET` (returns the blob, `none` for a missing or TTL-reclaimed
key). -/
def dbGet (now : Int) (db : RedisDB) (k : String) : Option (List Nat) :=
  (dbEntry now db k).map RedisEntry.value

/-- Redis `SET key value ttl`, with `deadline = now + ttl` the absolute
expiry instant. -/
def dbSet (db : RedisDB) (k : String) (v : List Nat) (deadline : Int) :
    RedisDB :=
  insertKey db k ⟨v, deadline⟩

/-- Redis `TTL key`: remaining lifetime, or `-2` for a missing key. -/
def dbTTL (now : Int) (db : RedisDB) (k : String) : Int :=
  match dbEntry now db k with
  | none => -2
  | some e => e.expireAt - now

namespace RedisStore

/-- `RedisStore.Save`: encode, refuse with `Expired` when the remaining
TTL `expiresAt - now` is not positive, otherwise `SET` with that TTL. -/
def Save (now : Int) (db : RedisDB) (secret : Secret) :
    RedisDB × Except StoreErr Unit :=
  let data := encode secret
  let ttl := secret.expiresAt - now
  if ttl ≤ 0 then (db, .error .expired)
  else (dbSet db (secretKey secret.id) data (now + ttl), .ok ())

/-- `RedisStore.Get`: fetch and decode the blob; a missing (or
TTL-reclaimed) key is `NotFound`; an exhausted record is lazily deleted
and reported as `MaxViewsReached`. No expiry check is performed here:
the TTL has already reclaimed any expired key. -/
def Get (now : Int) (db : RedisDB) (id : String) :
    RedisDB × Except StoreErr Secret :=
  match dbGet now db (secretKey id) with
  | none => (db, .error .notFound)
  | some data =>
    match decode data with
    | none => (db, .error .internalFault)
    | some secret =>
      if secret.currentViews ≥ secret.maxViews then
        (eraseKey db (secretKey id), .error .maxViews)
      else (db, .ok secret)

/-- `RedisStore.Delete`: Redis `DEL`, idempotent. -/
def Delete (db : RedisDB) (id : String) : RedisDB :=
  eraseKey db (secretKey id)

/-- The body `txf` of the watched transaction in
`RedisStore.IncrementViews`, executed here without interference (the
conflict/retry behaviour is modelled separately by `watchLoop`): read and
decode the watched key, validate expiry and budget, bump the count, then
commit — `DEL` when the budget is now exhausted, else rewrite the blob
preserving the remaining TTL (skipping the write when no TTL remains). -/
def txf (now : Int) (db : RedisDB) (id : String) :
    Except StoreErr (RedisDB × Int) :=
  match dbGet now db (secretKey id) with
  | none => .error .notFound
  | some data =>
    match decode data with
    | none => .error .internalFault
    | some secret =>
      if now > secret.expiresAt then .error .expired
      else if secret.currentViews ≥ secret.maxViews then .error .maxViews
      else
        let s' := { secret with currentViews := secret.currentViews + 1 }
        let newData := encode s'
        let ttl := dbTTL now db (secretKey id)
        let db' :=
          if s'.currentViews ≥ s'.maxViews then Delete db id
          else if ttl > 0 then dbSet db (secretKey id) newData (now + ttl)
          else db
        .ok (db', s'.currentViews)

/-- `RedisStore.IncrementViews` in the interference-free case (the
`Watch` commit is not contended): run `txf` once; on `Expired` or
`MaxViewsReached` perform the best-effort delete the caller does before
returning the error. -/
def IncrementViews (now : Int) (db : RedisDB) (id : String) :
    RedisDB × Except StoreErr Int :=
  match txf now db id with
  | .ok (db', views) => (db', .ok views)
  | .error e =>
    if e = .expired ∨ e = .maxViews then (Delete db id, .error e)
    else (db, .error e)

/-- One observable outcome of `r.client.Watch(ctx, txf, key)` as seen by
the retry loop in `RedisStore.IncrementViews`. -/
inductive WatchOutcome where
  | committed (views : Int)
  | txFailed
  | failed (e : StoreErr)
deriving DecidableEq, Repr

/-- The bounded optimistic retry loop of `RedisStore.IncrementViews`,
abstracted over the outcome of each `Watch` attempt: starting at attempt
index `i` with `fuel` iterations left (the source runs `for i := 0; i <
3; i++`), return the result plus the total number of `Watch` attempts
made. A `TxFailedErr` outcome retries; any other outcome returns at
once; exhausting the bound surfaces `writeConflict` (`redis.TxFailedErr`). -/
def watchLoop (outcomes : Nat → WatchOutcome) :
    Nat → Nat → Except StoreErr Int × Nat
  | i, 0 => (.error .writeConflict, i)
  | i, fuel + 1 =>
    match outcomes i with
    | .committed views => (.ok views, i + 1)
    | .txFailed => watchLoop outcomes (i + 1) fuel
    | .failed e => (.error e, i + 1)

/-- The retry loop as invoked by the source: attempt bound 3. -/
def IncrementViewsRetry (outcomes : Nat → WatchOutcome) :
    Except StoreErr Int × Nat :=
  watchLoop outcomes 0 3

end RedisStore

/-! ### Pointer-level model of the memory store

`MemoryStore.secrets` is a `map[string]*models.Secret`: the map stores
pointers, `Get` returns the stored pointer itself, and
`IncrementViews` mutates the pointed-to record in place
(`secret.CurrentViews++`). To reason about aliasing between a record a
caller received from `Get` and later mutations, this refines the table
into an explicit heap of `Secret` cells addressed by `Nat`, with the
table mapping ids to addresses. -/

/-- Heap of allocated `models.Secret` records. -/
abbrev Heap := List (Nat × Secret)

/-- Read the record a pointer refers to. -/
def deref (h : Heap) (addr : Nat) : Option Secret :=
  match h with
  | [] => none
  | (a, s) :: rest => if addr = a then some s else deref rest addr

/-- Overwrite the record a pointer refers to (in-place mutation through
the pointer). -/
def heapSet (h : Heap) (addr : Nat) (s : Secret) : Heap :=
  match h with
  | [] => []
  | (a, s₀) :: rest =>
    if addr = a then (a, s) :: rest else (a, s₀) :: heapSet rest addr s

/-- Pointer-level state of a `MemoryStore`: the heap plus the map from id
to the stored pointer. -/
structure MemState where
  heap  : Heap
  table : List (String × Nat)
deriving DecidableEq, Repr

namespace MemoryStorePtr

/-- `MemoryStore.Get` at the pointer level: on success it returns the
pointer stored in the map — `return secret, nil` returns the
`*models.Secret` itself, not a copy of the record. -/
def Get (now : Int) (st : MemState) (id : String) :
    Except StoreErr Nat :=
  match List.lookup id st.table with
  | none => .error .notFound
  | some addr =>
    match deref st.heap addr with
    | none => .error .notFound
    | some secret =>
      if now > secret.expiresAt then .error .expired
      else if secret.currentViews ≥ secret.maxViews then .error .maxViews
      else .ok addr

/-- `MemoryStore.IncrementViews` at the pointer level:
`secret.CurrentViews++` writes through the pointer held in the map (the
heap cell is updated in place), then the id is unmapped if the budget is
now exhausted — the cell itself survives for any caller still holding
the pointer. -/
def IncrementViews (now : Int) (st : MemState) (id : String) :
    MemState × Except StoreErr Int :=
  match List.lookup id st.table with
  | none => (st, .error .notFound)
  | some addr =>
    match deref st.heap addr with
    | none => (st, .error .notFound)
    | some secret =>
      if now > secret.expiresAt then
        ({ st with table := eraseKey st.table id }, .error .expired)
      else if secret.currentViews ≥ secret.maxViews then
        ({ st with table := eraseKey st.table id }, .error .maxViews)
      else
        let s' := { secret with currentViews := secret.currentViews + 1 }
        let heap' := heapSet st.heap addr s'
        if s'.currentViews ≥ s'.maxViews then
          (⟨heap', eraseKey st.table id⟩, .ok s'.currentViews)
        else
          (⟨heap', st.table⟩, .ok s'.currentViews)

end MemoryStorePtr

/-! ### Claims -/

/-- Claim C1: for every stored record with `currentViews < maxViews` and
`expiresAt` in the future, `IncrementViews` succeeds and returns the new
`currentViews`, which equals the old value plus one and never exceeds
`maxViews`; and exactly when this new value equals `maxViews`, that same
call also removes the record from storage — on the memory backend and,
for an uncontended transaction, on the Redis backend. -/
theorem C1_incrementViews_last_reader
    (now d : Int) (t : Table) (db : RedisDB) (id : String) (s : Secret)
    (hmem : List.lookup id t = some s)
    (hdb : List.lookup (secretKey id) db = some ⟨encode s, d⟩)
    (hd : now < d)
    (hexp : ¬ now > s.expiresAt)
    (hv : s.currentViews < s.maxViews) :
    (MemoryStore.IncrementViews now (some t) id).2 = .ok (s.currentViews + 1)
    ∧ s.currentViews + 1 ≤ s.maxViews
    ∧ (List.lookup id (((MemoryStore.IncrementViews now (some t) id).1).getD []) = none
        ↔ s.currentViews + 1 = s.maxViews)
    ∧ (RedisStore.IncrementViews now db id).2 = .ok (s.currentViews + 1)
    ∧ (dbGet now (RedisStore.IncrementViews now db id).1 (secretKey id) = none
        ↔ s.currentViews + 1 = s.maxViews) := by
  have hvlt : ¬ s.currentViews ≥ s.maxViews := by omega
  have hget : dbGet now db (secretKey id) = some (encode s) := by
    simp [dbGet, dbEntry, hdb, hd]
  have httl : dbTTL now db (secretKey id) = d - now := by
    simp [dbTTL, dbEntry, hdb, hd]
  by_cases hmax : s.currentViews + 1 ≥ s.maxViews
  · have heq : s.currentViews + 1 = s.maxViews := by omega
    have hmemRun : MemoryStore.IncrementViews now (some t) id =
        (some (eraseKey (insertKey t id { s with currentViews := s.currentViews + 1 }) id),
          .ok (s.currentViews + 1)) := by
      simp only [MemoryStore.IncrementViews, hmem]
      rw [if_neg hexp, if_neg hvlt]
      simp only [if_pos hmax]
    have htxf : RedisStore.txf now db id =
        .ok (RedisStore.Delete db id, s.currentViews + 1) := by
      simp only [RedisStore.txf, hget, decode_encode]
      rw [if_neg hexp, if_neg hvlt]
      simp only [if_pos hmax]
    have hredisRun : RedisStore.IncrementViews now db id =
        (RedisStore.Delete db id, .ok (s.currentViews + 1)) := by
      simp only [RedisStore.IncrementViews, htxf]
    refine ⟨by rw [hmemRun], by omega, ?_, by rw [hredisRun], ?_⟩
    · rw [hmemRun]
      simp [lookup_eraseKey, heq]
    · rw [hredisRun]
      simp [RedisStore.Delete, dbGet, dbEntry, lookup_eraseKey, heq]
  · have hne : ¬ s.currentViews + 1 = s.maxViews := by omega
    have hmemRun : MemoryStore.IncrementViews now (some t) id =
        (some (insertKey t id { s with currentViews := s.currentViews + 1 }),
          .ok (s.currentViews + 1)) := by
      simp only [MemoryStore.IncrementViews, hmem]
      rw [if_neg hexp, if_neg hvlt]
      simp only [if_neg hmax]
    have httlpos : dbTTL now db (secretKey id) > 0 := by omega
    have htxf : RedisStore.txf now db id =
        .ok (dbSet db (secretKey id)
               (encode { s with currentViews := s.currentViews + 1 })
               (now + dbTTL now db (secretKey id)),
             s.currentViews + 1) := by
      simp only [RedisStore.txf, hget, decode_encode]
      rw [if_neg hexp, if_neg hvlt]
      simp only [if_neg hmax, if_pos httlpos]
    have hredisRun : RedisStore.IncrementViews now db id =
        (dbSet db (secretKey id)
           (encode { s with currentViews := s.currentViews + 1 })
           (now + dbTTL now db (secretKey id)),
         .ok (s.currentViews + 1)) := by
      simp only [RedisStore.IncrementViews, htxf]
    refine ⟨by rw [hmemRun], by omega, ?_, by rw [hredisRun], ?_⟩
    · rw [hmemRun]
      simp [lookup_insertKey, hne]
    · rw [hredisRun]
      have : now < now + dbTTL now db (secretKey id) := by omega
      simp [dbSet, dbGet, dbEntry, lookup_insertKey, this, hne]

/-- Concrete run of `C1_incrementViews_last_reader`: a record with
`maxViews = 1`, `currentViews = 0`, deadline 10 at time 0, in both
backends. -/
theorem C1_witness :
    (MemoryStore.IncrementViews 0
        (some [("a", (⟨"a", [7], 1, 0, 10, 0, "p"⟩ : Secret))]) "a").2 =
      .ok ((⟨"a", [7], 1, 0, 10, 0, "p"⟩ : Secret).currentViews + 1)
    ∧ (⟨"a", [7], 1, 0, 10, 0, "p"⟩ : Secret).currentViews + 1 ≤
        (⟨"a", [7], 1, 0, 10, 0, "p"⟩ : Secret).maxViews
    ∧ (List.lookup "a"
        (((MemoryStore.IncrementViews 0
            (some [("a", (⟨"a", [7], 1, 0, 10, 0, "p"⟩ : Secret))]) "a").1).getD []) = none
        ↔ (⟨"a", [7], 1, 0, 10, 0, "p"⟩ : Secret).currentViews + 1 =
            (⟨"a", [7], 1, 0, 10, 0, "p"⟩ : Secret).maxViews)
    ∧ (RedisStore.IncrementViews 0
        [("secret:a", ⟨encode (⟨"a", [7], 1, 0, 10, 0, "p"⟩ : Secret), 10⟩)] "a").2 =
      .ok ((⟨"a", [7], 1, 0, 10, 0, "p"⟩ : Secret).currentViews + 1)
    ∧ (dbGet 0
        (RedisStore.IncrementViews 0
          [("secret:a", ⟨encode (⟨"a", [7], 1, 0, 10, 0, "p"⟩ : Secret), 10⟩)] "a").1
        (secretKey "a") = none
        ↔ (⟨"a", [7], 1, 0, 10, 0, "p"⟩ : Secret).currentViews + 1 =
            (⟨"a", [7], 1, 0, 10, 0, "p"⟩ : Secret).maxViews) :=
  C1_incrementViews_last_reader 0 10 _ _ "a" ⟨"a", [7], 1, 0, 10, 0, "p"⟩
    (by simp [List.lookup]) (by simp [secretKey, List.lookup]) (by decide)
    (by decide) (by decide)

/-- Claim C2 counterexample: at time 5, saving a secret whose
`expiresAt` is 0 (already past) on the local backend does not fail with
`Expired` — `MemoryStore.Save` performs no expiry check: it succeeds and
persists the record. -/
theorem C2_counterexample :
    (⟨"a", [7], 1, 0, 0, 0, "p"⟩ : Secret).expiresAt < 5
    ∧ MemoryStore.Save (some []) (⟨"a", [7], 1, 0, 0, 0, "p"⟩ : Secret) =
        SaveResult.ok (some [("a", (⟨"a", [7], 1, 0, 0, 0, "p"⟩ : Secret))])
    ∧ List.lookup "a"
        ((MemoryStore.Save (some [])
          (⟨"a", [7], 1, 0, 0, 0, "p"⟩ : Secret)).newTable.getD []) =
        some (⟨"a", [7], 1, 0, 0, 0, "p"⟩ : Secret) := by
  refine ⟨by decide, rfl, by simp [MemoryStore.Save, SaveResult.newTable,
    insertKey, List.lookup]⟩

/-- Claim C2 (amended): for every secret whose `expiresAt` is already in
the past, `Save` fails with `Expired` and does not persist the record on
the remote backend; on the local backend `Save` succeeds and persists
the record, but the record never becomes readable: every later `Get` or
`IncrementViews` on its id reports `Expired`. -/
theorem C2_expired_save (now now' : Int) (t : Table) (db : RedisDB) (s : Secret)
    (hpast : s.expiresAt < now) (hlater : now ≤ now') :
    RedisStore.Save now db s = (db, .error .expired)
    ∧ MemoryStore.Save (some t) s = SaveResult.ok (some (insertKey t s.id s))
    ∧ (MemoryStore.Get now' (some (insertKey t s.id s)) s.id).2 = .error .expired
    ∧ (MemoryStore.IncrementViews now' (some (insertKey t s.id s)) s.id).2 =
        .error .expired := by
  have hlook : List.lookup s.id (insertKey t s.id s) = some s := by
    simp [lookup_insertKey]
  have hexp : now' > s.expiresAt := by omega
  refine ⟨?_, rfl, ?_, ?_⟩
  · have : s.expiresAt - now ≤ 0 := by omega
    simp [RedisStore.Save, this]
  · simp only [MemoryStore.Get, hlook]
    rw [if_pos hexp]
  · simp only [MemoryStore.IncrementViews, hlook]
    rw [if_pos hexp]

/-- Concrete run of `C2_expired_save`: secret expired at 0, saved at
time 5, probed at time 6. -/
theorem C2_witness :
    RedisStore.Save 5 [] (⟨"a", [7], 1, 0, 0, 0, "p"⟩ : Secret) =
      ([], .error .expired)
    ∧ MemoryStore.Save (some []) (⟨"a", [7], 1, 0, 0, 0, "p"⟩ : Secret) =
        SaveResult.ok (some (insertKey []
          (⟨"a", [7], 1, 0, 0, 0, "p"⟩ : Secret).id
          (⟨"a", [7], 1, 0, 0, 0, "p"⟩ : Secret)))
    ∧ (MemoryStore.Get 6
        (some (insertKey [] (⟨"a", [7], 1, 0, 0, 0, "p"⟩ : Secret).id
          (⟨"a", [7], 1, 0, 0, 0, "p"⟩ : Secret)))
        (⟨"a", [7], 1, 0, 0, 0, "p"⟩ : Secret).id).2 = .error .expired
    ∧ (MemoryStore.IncrementViews 6
        (some (insertKey [] (⟨"a", [7], 1, 0, 0, 0, "p"⟩ : Secret).id
          (⟨"a", [7], 1, 0, 0, 0, "p"⟩ : Secret)))
        (⟨"a", [7], 1, 0, 0, 0, "p"⟩ : Secret).id).2 = .error .expired :=
  C2_expired_save 5 6 [] [] ⟨"a", [7], 1, 0, 0, 0, "p"⟩ (by decide) (by decide)

/-- Claim C3 counterexample: at the exact boundary `now = expiresAt`
(where the claim's `now ≥ expiresAt` demands `Expired`), the local
backend's `Get` still returns the record: the code expires only when
`now` is strictly after `expiresAt` (`time.Now().After`). -/
theorem C3_counterexample :
    (50 : Int) ≥ (⟨"a", [7], 1, 0, 50, 0, "p"⟩ : Secret).expiresAt
    ∧ (MemoryStore.Get 50
        (some [("a", (⟨"a", [7], 1, 0, 50, 0, "p"⟩ : Secret))]) "a").2 =
        .ok (⟨"a", [7], 1, 0, 50, 0, "p"⟩ : Secret)
    ∧ (MemoryStore.Get 50
        (some [("a", (⟨"a", [7], 1, 0, 50, 0, "p"⟩ : Secret))]) "a").2 ≠
        .error .expired := by
  refine ⟨by decide, ?_, ?_⟩ <;>
    simp [MemoryStore.Get, List.lookup]

/-- Claim C3 (amended): for every id, `Get` behaves uniformly across
both backends: it returns the record if it is live; `NotFound` if no
record is present at the id (on the remote backend this includes a
TTL-reclaimed record, which is indistinguishable from never-existed);
`Expired` if a record is present but `now` is strictly after
`expiresAt`; and otherwise `MaxViewsReached` if a record is present but
`currentViews ≥ maxViews`. -/
theorem C3_get_uniform (now : Int) (t : Table) (db : RedisDB) (id : String) :
    ((List.lookup id t = none →
        (MemoryStore.Get now (some t) id).2 = .error .notFound)
    ∧ (∀ s, List.lookup id t = some s →
        (MemoryStore.Get now (some t) id).2 =
          if now > s.expiresAt then .error .expired
          else if s.currentViews ≥ s.maxViews then .error .maxViews
          else .ok s))
    ∧ ((dbGet now db (secretKey id) = none →
        (RedisStore.Get now db id).2 = .error .notFound)
    ∧ (∀ s, dbGet now db (secretKey id) = some (encode s) →
        (RedisStore.Get now db id).2 =
          if s.currentViews ≥ s.maxViews then .error .maxViews
          else .ok s)) := by
  refine ⟨⟨?_, ?_⟩, ?_, ?_⟩
  · intro h
    simp [MemoryStore.Get, h]
  · intro s h
    simp only [MemoryStore.Get, h]
    split
    · rfl
    · split <;> rfl
  · intro h
    simp [RedisStore.Get, h]
  · intro s h
    simp only [RedisStore.Get, h, decode_encode]
    split <;> rfl

/-- Concrete run of `C3_get_uniform`: a live record at time 0 in the
local table, an absent key on the remote backend. -/
theorem C3_witness :
    (MemoryStore.Get 0
        (some [("a", (⟨"a", [7], 2, 1, 10, 0, "p"⟩ : Secret))]) "a").2 =
      .ok (⟨"a", [7], 2, 1, 10, 0, "p"⟩ : Secret)
    ∧ (RedisStore.Get 0 [] "a").2 = .error .notFound := by
  have h := C3_get_uniform 0 [("a", (⟨"a", [7], 2, 1, 10, 0, "p"⟩ : Secret))] [] "a"
  refine ⟨?_, h.2.1 rfl⟩
  have h2 := h.1.2 (⟨"a", [7], 2, 1, 10, 0, "p"⟩ : Secret) (by simp [List.lookup])
  rw [h2]
  norm_num

/-- Claim C4 counterexample: with `maxViews = 3`, the third successful
`IncrementViews` auto-deletes the record, so the fourth call finds
nothing and returns `NotFound` — not `MaxViewsReached` as the claim
states. -/
theorem C4_counterexample :
    (MemoryStore.IncrementViews 4
      ((MemoryStore.IncrementViews 3
        ((MemoryStore.IncrementViews 2
          ((MemoryStore.IncrementViews 1
            (some [("a", (⟨"a", [7], 3, 0, 100, 0, "p"⟩ : Secret))]) "a").1)
          "a").1) "a").1) "a").2 = .error .notFound
    ∧ (MemoryStore.IncrementViews 4
      ((MemoryStore.IncrementViews 3
        ((MemoryStore.IncrementViews 2
          ((MemoryStore.IncrementViews 1
            (some [("a", (⟨"a", [7], 3, 0, 100, 0, "p"⟩ : Secret))]) "a").1)
          "a").1) "a").1) "a").2 ≠ .error .maxViews := by
  have h : (MemoryStore.IncrementViews 4
      ((MemoryStore.IncrementViews 3
        ((MemoryStore.IncrementViews 2
          ((MemoryStore.IncrementViews 1
            (some [("a", (⟨"a", [7], 3, 0, 100, 0, "p"⟩ : Secret))]) "a").1)
          "a").1) "a").1) "a").2 = .error .notFound := by
    simp [MemoryStore.IncrementViews, List.lookup, insertKey, eraseKey,
      List.filter]
  refine ⟨h, ?_⟩
  rw [h]
  simp

/-- Claim C4 (amended): for a record saved with `maxViews = 3` and a
future `expiresAt`, three sequential `IncrementViews` calls return
`1, 2, 3` in that order, the record is absent from storage after the
third call (which deleted it on reaching the budget), and a fourth call
therefore returns `NotFound`. -/
theorem C4_three_then_notFound (n1 n2 n3 n4 : Int) (t : Table) (id : String)
    (s : Secret) (hlook : List.lookup id t = some s)
    (h0 : s.currentViews = 0) (h3 : s.maxViews = 3)
    (he1 : ¬ n1 > s.expiresAt) (he2 : ¬ n2 > s.expiresAt)
    (he3 : ¬ n3 > s.expiresAt) :
    (MemoryStore.IncrementViews n1 (some t) id).2 = .ok 1
    ∧ (MemoryStore.IncrementViews n2
        (MemoryStore.IncrementViews n1 (some t) id).1 id).2 = .ok 2
    ∧ (MemoryStore.IncrementViews n3
        (MemoryStore.IncrementViews n2
          (MemoryStore.IncrementViews n1 (some t) id).1 id).1 id).2 = .ok 3
    ∧ List.lookup id
        (((MemoryStore.IncrementViews n3
          (MemoryStore.IncrementViews n2
            (MemoryStore.IncrementViews n1 (some t) id).1 id).1 id).1).getD [])
        = none
    ∧ (MemoryStore.IncrementViews n4
        (MemoryStore.IncrementViews n3
          (MemoryStore.IncrementViews n2
            (MemoryStore.IncrementViews n1 (some t) id).1 id).1 id).1 id).2 =
        .error .notFound := by
  obtain ⟨sid, sed, smv, scv, sea, sca, spp⟩ := s
  simp only at h0 h3 he1 he2 he3
  subst h0 h3
  have run1 : MemoryStore.IncrementViews n1 (some t) id =
      (some (insertKey t id ⟨sid, sed, 3, 1, sea, sca, spp⟩), .ok 1) := by
    simp only [MemoryStore.IncrementViews, hlook]
    rw [if_neg he1]
    norm_num
  have hl1 : List.lookup id (insertKey t id ⟨sid, sed, 3, 1, sea, sca, spp⟩) =
      some ⟨sid, sed, 3, 1, sea, sca, spp⟩ := by
    simp [lookup_insertKey]
  have run2 : MemoryStore.IncrementViews n2
      (some (insertKey t id ⟨sid, sed, 3, 1, sea, sca, spp⟩)) id =
      (some (insertKey (insertKey t id ⟨sid, sed, 3, 1, sea, sca, spp⟩) id
        ⟨sid, sed, 3, 2, sea, sca, spp⟩), .ok 2) := by
    simp only [MemoryStore.IncrementViews, hl1]
    rw [if_neg he2]
    norm_num
  have hl2 : List.lookup id (insertKey (insertKey t id
        ⟨sid, sed, 3, 1, sea, sca, spp⟩) id ⟨sid, sed, 3, 2, sea, sca, spp⟩) =
      some ⟨sid, sed, 3, 2, sea, sca, spp⟩ := by
    simp [lookup_insertKey]
  have run3 : MemoryStore.IncrementViews n3
      (some (insertKey (insertKey t id ⟨sid, sed, 3, 1, sea, sca, spp⟩) id
        ⟨sid, sed, 3, 2, sea, sca, spp⟩)) id =
      (some (eraseKey (insertKey (insertKey (insertKey t id
          ⟨sid, sed, 3, 1, sea, sca, spp⟩) id ⟨sid, sed, 3, 2, sea, sca, spp⟩)
          id ⟨sid, sed, 3, 3, sea, sca, spp⟩) id), .ok 3) := by
    simp only [MemoryStore.IncrementViews, hl2]
    rw [if_neg he3]
    norm_num
  have habs : List.lookup id (eraseKey (insertKey (insertKey (insertKey t id
      ⟨sid, sed, 3, 1, sea, sca, spp⟩) id ⟨sid, sed, 3, 2, sea, sca, spp⟩)
      id ⟨sid, sed, 3, 3, sea, sca, spp⟩) id) = none := by
    simp [lookup_eraseKey]
  have run4 : MemoryStore.IncrementViews n4
      (some (eraseKey (insertKey (insertKey (insertKey t id
        ⟨sid, sed, 3, 1, sea, sca, spp⟩) id ⟨sid, sed, 3, 2, sea, sca, spp⟩)
        id ⟨sid, sed, 3, 3, sea, sca, spp⟩) id)) id =
      (some (eraseKey (insertKey (insertKey (insertKey t id
        ⟨sid, sed, 3, 1, sea, sca, spp⟩) id ⟨sid, sed, 3, 2, sea, sca, spp⟩)
        id ⟨sid, sed, 3, 3, sea, sca, spp⟩) id), .error .notFound) := by
    simp only [MemoryStore.IncrementViews, habs]
  rw [run1]
  rw [run2]
  rw [run3]
  rw [run4]
  exact ⟨rfl, rfl, rfl, habs, rfl⟩

/-- Concrete run of `C4_three_then_notFound` at times 1, 2, 3, 4 with a
record expiring at 100. -/
theorem C4_witness :
    (MemoryStore.IncrementViews 1
        (some [("a", (⟨"a", [7], 3, 0, 100, 0, "p"⟩ : Secret))]) "a").2 = .ok 1
    ∧ (MemoryStore.IncrementViews 2
        (MemoryStore.IncrementViews 1
          (some [("a", (⟨"a", [7], 3, 0, 100, 0, "p"⟩ : Secret))]) "a").1
        "a").2 = .ok 2
    ∧ (MemoryStore.IncrementViews 3
        (MemoryStore.IncrementViews 2
          (MemoryStore.IncrementViews 1
            (some [("a", (⟨"a", [7], 3, 0, 100, 0, "p"⟩ : Secret))]) "a").1
          "a").1 "a").2 = .ok 3
    ∧ List.lookup "a"
        (((MemoryStore.IncrementViews 3
          (MemoryStore.IncrementViews 2
            (MemoryStore.IncrementViews 1
              (some [("a", (⟨"a", [7], 3, 0, 100, 0, "p"⟩ : Secret))]) "a").1
            "a").1 "a").1).getD []) = none
    ∧ (MemoryStore.IncrementViews 4
        (MemoryStore.IncrementViews 3
          (MemoryStore.IncrementViews 2
            (MemoryStore.IncrementViews 1
              (some [("a", (⟨"a", [7], 3, 0, 100, 0, "p"⟩ : Secret))]) "a").1
            "a").1 "a").1 "a").2 = .error .notFound :=
  C4_three_then_notFound 1 2 3 4 _ "a" ⟨"a", [7], 3, 0, 100, 0, "p"⟩
    (by simp [List.lookup]) rfl rfl (by decide) (by decide) (by decide)

/-- Claim C5: refuted at the pointer level — `MemoryStore.Get` returns
the stored `*models.Secret` itself (`return secret, nil`), not an
independent copy, so the record the caller received from `Get` (address
0 here) changes under a subsequent `IncrementViews` on the same id: its
`currentViews` flips from 0 to 1 through the shared pointer. The spec
demands copy-out before releasing the lock; the code returns the alias. -/
theorem C5_get_returns_alias :
    MemoryStorePtr.Get 1
      (⟨[(0, (⟨"a", [7], 2, 0, 100, 0, "p"⟩ : Secret))], [("a", 0)]⟩ : MemState)
      "a" = .ok 0
    ∧ deref
        (⟨[(0, (⟨"a", [7], 2, 0, 100, 0, "p"⟩ : Secret))], [("a", 0)]⟩ :
          MemState).heap 0 =
        some (⟨"a", [7], 2, 0, 100, 0, "p"⟩ : Secret)
    ∧ (MemoryStorePtr.IncrementViews 1
        (⟨[(0, (⟨"a", [7], 2, 0, 100, 0, "p"⟩ : Secret))], [("a", 0)]⟩ :
          MemState) "a").2 = .ok 1
    ∧ deref (MemoryStorePtr.IncrementViews 1
        (⟨[(0, (⟨"a", [7], 2, 0, 100, 0, "p"⟩ : Secret))], [("a", 0)]⟩ :
          MemState) "a").1.heap 0 =
        some (⟨"a", [7], 2, 1, 100, 0, "p"⟩ : Secret)
    ∧ deref (MemoryStorePtr.IncrementViews 1
        (⟨[(0, (⟨"a", [7], 2, 0, 100, 0, "p"⟩ : Secret))], [("a", 0)]⟩ :
          MemState) "a").1.heap 0 ≠
        some (⟨"a", [7], 2, 0, 100, 0, "p"⟩ : Secret) := by
  refine ⟨?_, by decide, ?_, by decide, by decide⟩ <;>
    simp [MemoryStorePtr.Get, MemoryStorePtr.IncrementViews, List.lookup,
      deref, heapSet]

theorem lookup_eq_none_of_not_mem_keys {β : Type} (l : List (String × β))
    (k : String) (h : k ∉ l.map Prod.fst) : List.lookup k l = none := by
  induction l with
  | nil => rfl
  | cons p rest ih =>
    simp only [List.map_cons, List.mem_cons, not_or] at h
    have : (k == p.1) = false := by simp [h.1]
    simp [List.lookup, this, ih h.2]

theorem lookup_filter_nodup {β : Type} (f : β → Bool)
    (l : List (String × β)) (k : String)
    (h : (l.map Prod.fst).Nodup) :
    List.lookup k (l.filter (fun p => f p.2)) =
      (List.lookup k l).bind (fun v => if f v then some v else none) := by
  induction l with
  | nil => rfl
  | cons p rest ih =>
    rw [List.map_cons, List.nodup_cons] at h
    obtain ⟨hp, hrest⟩ := h
    by_cases hk : k = p.1
    · have hbeq : (k == p.1) = true := by simp [hk]
      by_cases hf : f p.2
      · simp [List.filter, hf, List.lookup, hbeq]
      · have hnone : List.lookup k (rest.filter (fun p => f p.2)) = none := by
          apply lookup_eq_none_of_not_mem_keys
          rw [hk]
          intro hmem
          obtain ⟨q, hq, hqk⟩ := List.mem_map.1 hmem
          exact hp (List.mem_map.2 ⟨q, List.mem_of_mem_filter hq, hqk⟩)
        simp [List.filter, hf, List.lookup, hbeq, hnone]
    · have hbeq : (k == p.1) = false := by simp [hk]
      by_cases hf : f p.2 <;>
        simp [List.filter, hf, List.lookup, hbeq, ih hrest]

/-- Claim C6: one tick of the local backend's sweep (`cleanup`) removes
from the table exactly the records that are expired (`now` strictly past
`expiresAt`) or exhausted (`currentViews ≥ maxViews`), leaves every live
record bound to the same unchanged record, and never invents bindings;
in particular a record whose `expiresAt` lies one (positive)
tick-interval in the past is removed by one sweep. -/
theorem C6_cleanup_exact (now interval : Int) (t : Table) (id : String)
    (hnodup : (t.map Prod.fst).Nodup) :
    (List.lookup id t = none →
      List.lookup id (MemoryStore.cleanup now t) = none)
    ∧ (∀ s, List.lookup id t = some s →
        List.lookup id (MemoryStore.cleanup now t) =
          if now > s.expiresAt ∨ s.currentViews ≥ s.maxViews then none
          else some s)
    ∧ (∀ s, 0 < interval → s.expiresAt = now - interval →
        List.lookup id t = some s →
        List.lookup id (MemoryStore.cleanup now t) = none) := by
  have hchar : List.lookup id (MemoryStore.cleanup now t) =
      (List.lookup id t).bind (fun v =>
        if !decide (now > v.expiresAt ∨ v.currentViews ≥ v.maxViews)
        then some v else none) := by
    have h0 := lookup_filter_nodup
      (fun s => !decide (now > s.expiresAt ∨ s.currentViews ≥ s.maxViews))
      t id hnodup
    exact h0
  refine ⟨?_, ?_, ?_⟩
  · intro h
    rw [hchar, h]
    rfl
  · intro s h
    rw [hchar, h]
    by_cases hdead : now > s.expiresAt ∨ s.currentViews ≥ s.maxViews
    · rw [if_pos hdead]
      have hb : (!decide (now > s.expiresAt ∨ s.currentViews ≥ s.maxViews)) =
          false := by simp [hdead]
      simp only [Option.some_bind]
      rw [if_neg (by rw [hb]; simp)]
    · rw [if_neg hdead]
      have hb : (!decide (now > s.expiresAt ∨ s.currentViews ≥ s.maxViews)) =
          true := by simp [hdead]
      simp only [Option.some_bind]
      rw [if_pos (by rw [hb])]
  · intro s hint hexp h
    rw [hchar, h]
    have hd : now > s.expiresAt ∨ s.currentViews ≥ s.maxViews :=
      Or.inl (by omega)
    have hb : (!decide (now > s.expiresAt ∨ s.currentViews ≥ s.maxViews)) =
        false := by simp [hd]
    simp only [Option.some_bind]
    rw [if_neg (by rw [hb]; simp)]

/-- Concrete run of `C6_cleanup_exact`: tick interval 5, a record that
expired at `-5` (one interval before `now = 0`) is swept; a live record
is kept unchanged. -/
theorem C6_witness :
    List.lookup "a" (MemoryStore.cleanup 0
      [("a", (⟨"a", [7], 1, 0, -5, 0, "p"⟩ : Secret)),
       ("b", (⟨"b", [8], 1, 0, 9, 0, "q"⟩ : Secret))]) = none
    ∧ List.lookup "b" (MemoryStore.cleanup 0
        [("a", (⟨"a", [7], 1, 0, -5, 0, "p"⟩ : Secret)),
         ("b", (⟨"b", [8], 1, 0, 9, 0, "q"⟩ : Secret))]) =
        some (⟨"b", [8], 1, 0, 9, 0, "q"⟩ : Secret) := by
  constructor
  · exact (C6_cleanup_exact 0 5
      [("a", (⟨"a", [7], 1, 0, -5, 0, "p"⟩ : Secret)),
       ("b", (⟨"b", [8], 1, 0, 9, 0, "q"⟩ : Secret))] "a"
      (by decide)).2.2 ⟨"a", [7], 1, 0, -5, 0, "p"⟩ (by decide) (by decide)
      (by simp [List.lookup])
  · have h := (C6_cleanup_exact 0 5
      [("a", (⟨"a", [7], 1, 0, -5, 0, "p"⟩ : Secret)),
       ("b", (⟨"b", [8], 1, 0, 9, 0, "q"⟩ : Secret))] "b"
      (by decide)).2.1 ⟨"b", [8], 1, 0, 9, 0, "q"⟩ (by simp [List.lookup])
    rw [h]
    norm_num

/-- Claim C7: for every secret live at save time, `Save(s)` immediately
followed by `Get(s.id)` — with no other operation and no view or expiry
boundary crossed in between — succeeds on both backends and returns a
record equal to `s` (hence with the same ciphertext, `maxViews`,
`expiresAt`, `createdAt`); on the remote backend this rests on
`decode (encode s)` reproducing all seven persisted fields. -/
theorem C7_save_get_roundtrip (now : Int) (t : Table) (db : RedisDB)
    (s : Secret) (hfut : now < s.expiresAt)
    (hv : s.currentViews < s.maxViews) :
    decode (encode s) = some s
    ∧ (MemoryStore.Get now (MemoryStore.Save (some t) s).newTable s.id).2 =
        .ok s
    ∧ (RedisStore.Get now (RedisStore.Save now db s).1 s.id).2 = .ok s := by
  have hexp : ¬ now > s.expiresAt := by omega
  have hvn : ¬ s.currentViews ≥ s.maxViews := by omega
  refine ⟨decode_encode s, ?_, ?_⟩
  · have hlook : List.lookup s.id (insertKey t s.id s) = some s := by
      simp [lookup_insertKey]
    simp only [MemoryStore.Save, SaveResult.newTable, MemoryStore.Get, hlook]
    rw [if_neg hexp, if_neg hvn]
  · have httl : ¬ s.expiresAt - now ≤ 0 := by omega
    have hsave : (RedisStore.Save now db s).1 =
        dbSet db (secretKey s.id) (encode s) (now + (s.expiresAt - now)) := by
      simp only [RedisStore.Save]
      rw [if_neg httl]
    rw [hsave]
    have hget : dbGet now
        (dbSet db (secretKey s.id) (encode s) (now + (s.expiresAt - now)))
        (secretKey s.id) = some (encode s) := by
      have hlt : now < now + (s.expiresAt - now) := by omega
      simp [dbGet, dbEntry, dbSet, lookup_insertKey, hlt, hfut]
    simp only [RedisStore.Get, hget, decode_encode]
    rw [if_neg hvn]

/-- Concrete run of `C7_save_get_roundtrip`: a fresh record with
`maxViews = 2`, expiring at 10, saved and read back at time 0. -/
theorem C7_witness :
    decode (encode (⟨"a", [7], 2, 0, 10, 3, "p"⟩ : Secret)) =
      some (⟨"a", [7], 2, 0, 10, 3, "p"⟩ : Secret)
    ∧ (MemoryStore.Get 0
        (MemoryStore.Save (some []) (⟨"a", [7], 2, 0, 10, 3, "p"⟩ : Secret)).newTable
        (⟨"a", [7], 2, 0, 10, 3, "p"⟩ : Secret).id).2 =
        .ok (⟨"a", [7], 2, 0, 10, 3, "p"⟩ : Secret)
    ∧ (RedisStore.Get 0
        (RedisStore.Save 0 [] (⟨"a", [7], 2, 0, 10, 3, "p"⟩ : Secret)).1
        (⟨"a", [7], 2, 0, 10, 3, "p"⟩ : Secret).id).2 =
        .ok (⟨"a", [7], 2, 0, 10, 3, "p"⟩ : Secret) :=
  C7_save_get_roundtrip 0 [] [] ⟨"a", [7], 2, 0, 10, 3, "p"⟩
    (by decide) (by decide)

theorem watchLoop_attempts_le (g : Nat → RedisStore.WatchOutcome)
    (i fuel : Nat) : (RedisStore.watchLoop g i fuel).2 ≤ i + fuel := by
  induction fuel generalizing i with
  | zero => simp [RedisStore.watchLoop]
  | succ n ih =>
    simp only [RedisStore.watchLoop]
    cases hgi : g i with
    | committed v => simp only []; omega
    | txFailed =>
      have := ih (i + 1)
      simp only []
      omega
    | failed e => simp only []; omega

/-- Claim C8: the remote backend's `IncrementViews` makes at most 3
`Watch` attempts; when every attempt is rejected because the watched key
changed concurrently, it returns the `WriteConflict` error
(`redis.TxFailedErr`), which is distinct from `NotFound`, `Expired` and
`MaxViewsReached`. -/
theorem C8_retry_exhaustion (outcomes : Nat → RedisStore.WatchOutcome)
    (hconf : ∀ i, i < 3 → outcomes i = .txFailed) :
    RedisStore.IncrementViewsRetry outcomes = (.error .writeConflict, 3)
    ∧ (∀ g, (RedisStore.IncrementViewsRetry g).2 ≤ 3)
    ∧ StoreErr.writeConflict ≠ StoreErr.notFound
    ∧ StoreErr.writeConflict ≠ StoreErr.expired
    ∧ StoreErr.writeConflict ≠ StoreErr.maxViews := by
  have h0 := hconf 0 (by omega)
  have h1 := hconf 1 (by omega)
  have h2 := hconf 2 (by omega)
  refine ⟨?_, fun g => watchLoop_attempts_le g 0 3, by decide, by decide,
    by decide⟩
  simp [RedisStore.IncrementViewsRetry, RedisStore.watchLoop, h0, h1, h2]

/-- Concrete run of `C8_retry_exhaustion`: every `Watch` attempt hits a
concurrent modification. -/
theorem C8_witness :
    RedisStore.IncrementViewsRetry (fun _ => .txFailed) =
      (.error .writeConflict, 3)
    ∧ (∀ g, (RedisStore.IncrementViewsRetry g).2 ≤ 3)
    ∧ StoreErr.writeConflict ≠ StoreErr.notFound
    ∧ StoreErr.writeConflict ≠ StoreErr.expired
    ∧ StoreErr.writeConflict ≠ StoreErr.maxViews :=
  C8_retry_exhaustion (fun _ => .txFailed) (fun _ _ => rfl)

/-- Claim C9: `MemoryStore.Get` never modifies the store state — for
every id and every table (including the nil table after `Close`), the
table component it returns equals its input, even when it reports
`Expired` or `MaxViewsReached` — whereas `RedisStore.Get` does delete an
exhausted record: when the key holds a record with
`currentViews ≥ maxViews`, the key is gone after the call. -/
theorem C9_get_frame (now : Int) (tbl : Option Table) (id : String)
    (db : RedisDB) (s : Secret) :
    (MemoryStore.Get now tbl id).1 = tbl
    ∧ (dbGet now db (secretKey id) = some (encode s) →
        s.currentViews ≥ s.maxViews →
        (RedisStore.Get now db id).1 = eraseKey db (secretKey id)
        ∧ dbGet now (RedisStore.Get now db id).1 (secretKey id) = none) := by
  constructor
  · cases tbl with
    | none => rfl
    | some t =>
      rcases h : List.lookup id t with _ | s'
      · simp [MemoryStore.Get, h]
      · simp only [MemoryStore.Get, h]
        split
        · rfl
        · split <;> rfl
  · intro hget hmax
    have hrun : RedisStore.Get now db id =
        (eraseKey db (secretKey id), .error .maxViews) := by
      simp only [RedisStore.Get, hget, decode_encode]
      rw [if_pos hmax]
    rw [hrun]
    exact ⟨rfl, by simp [dbGet, dbEntry, lookup_eraseKey]⟩

/-- Concrete run of `C9_get_frame`: an exhausted record
(`currentViews = maxViews = 1`) sitting in both backends at time 0. -/
theorem C9_witness :
    (MemoryStore.Get 0
      (some [("a", (⟨"a", [7], 1, 1, 10, 0, "p"⟩ : Secret))]) "a").1 =
      some [("a", (⟨"a", [7], 1, 1, 10, 0, "p"⟩ : Secret))]
    ∧ ((RedisStore.Get 0
        [("secret:a", ⟨encode (⟨"a", [7], 1, 1, 10, 0, "p"⟩ : Secret), 10⟩)]
        "a").1 =
        eraseKey
          [("secret:a", ⟨encode (⟨"a", [7], 1, 1, 10, 0, "p"⟩ : Secret), 10⟩)]
          (secretKey "a")
      ∧ dbGet 0
          (RedisStore.Get 0
            [("secret:a", ⟨encode (⟨"a", [7], 1, 1, 10, 0, "p"⟩ : Secret), 10⟩)]
            "a").1 (secretKey "a") = none) := by
  have h := C9_get_frame 0
    (some [("a", (⟨"a", [7], 1, 1, 10, 0, "p"⟩ : Secret))]) "a"
    [("secret:a", ⟨encode (⟨"a", [7], 1, 1, 10, 0, "p"⟩ : Secret), 10⟩)]
    ⟨"a", [7], 1, 1, 10, 0, "p"⟩
  exact ⟨h.1, h.2 (by simp [dbGet, dbEntry, secretKey, List.lookup])
    (by decide)⟩

/-- Claim C10: after `MemoryStore.Close`, the table is nil: every
subsequent `Get` or `IncrementViews` returns `NotFound`, `Delete` still
succeeds, but `Save` panics on assignment to the nil map instead of
returning an error. -/
theorem C10_close_nil_map (tbl : Option Table) (now : Int) (id : String)
    (s : Secret) :
    MemoryStore.Close tbl = none
    ∧ (MemoryStore.Get now (MemoryStore.Close tbl) id).2 = .error .notFound
    ∧ (MemoryStore.IncrementViews now (MemoryStore.Close tbl) id).2 =
        .error .notFound
    ∧ (MemoryStore.Delete (MemoryStore.Close tbl) id).2 = .ok ()
    ∧ MemoryStore.Save (MemoryStore.Close tbl) s = SaveResult.panics :=
  ⟨rfl, rfl, rfl, rfl, rfl⟩

end SecureShare
